import Mathlib

/-!
Verification of the social-media-posts watermark application.

Part 1 embeds the application-state glue code of `src/App.tsx` (the
authoritative screen variant) and `src/unnamed/part_000` (the duplicate
variant): the `AppState` record, the `updateProcessedUrl` state updater and
the `addLog` bounded debug log.

Part 2 embeds the watermark compositing engine.  The engine component
(`WatermarkCanvas`) is imported by `src/App.tsx` but its source file is not
part of the repository snapshot, so every engine definition below is
modelled from the specification (sections 3-5 of the spec); each such
definition carries a doc comment starting `Modelled from the spec:`.
Machine bytes are `Nat` values with explicit bounds, normalized colour
arithmetic is exact rational arithmetic standing in for the 0-1 normalized
float semantics, and rounding to 8-bit storage is explicit.
-/

namespace SocialMediaPosts

/-! ## Part 1: application state glue (src/App.tsx, src/unnamed/part_000) -/

/-- Platform choices of `PlatformType` used by `AppState.settings`. -/
inductive PlatformType where
  | igSquare
  | igStory
  | fbPost
  | xPost
deriving DecidableEq, Repr

/-- Resolution choices of `Resolution` used by `AppState.settings`. -/
inductive Resolution where
  | res1K
  | res2K
  | res4K
deriving DecidableEq, Repr

/-- One generated post, as in the `GeneratedPost` objects built by
`handleGenerate` in `src/App.tsx`. -/
structure GeneratedPost where
  id : String
  originalUrl : String
  processedUrl : String
  prompt : String
  caption : String
deriving DecidableEq, Repr

/-- The `settings` sub-record of the application state in `src/App.tsx`. -/
structure Settings where
  platform : PlatformType
  resolution : Resolution
  style : String
  count : Nat
  watermark : String
  watermarkOpacity : Rat
  showWatermark : Bool
deriving DecidableEq, Repr

/-- The `AppState` record held in the `useState` hook of `src/App.tsx`. -/
structure AppState where
  apiKeySelected : Bool
  isGenerating : Bool
  statusMessage : String
  posts : List GeneratedPost
  settings : Settings
deriving DecidableEq, Repr

/-- `updateProcessedUrl` from `src/App.tsx` lines 145-150 (identical in
`src/unnamed/part_000` lines 156-161): maps over `posts`, replacing the
`processedUrl` field of every post whose `id` equals `postId`. -/
def updateProcessedUrl (postId newUrl : String) (s : AppState) : AppState :=
  { s with
    posts := s.posts.map fun p =>
      if p.id = postId then { p with processedUrl := newUrl } else p }

/-- `addLog` from `src/App.tsx` lines 32-35 (authoritative variant):
`setDebugLog(prev => [...prev.slice(-9), msg])`.  JavaScript `slice(-9)`
keeps the last nine entries (or all of them when fewer), here rendered as
`List.drop (length - 9)` with truncated `Nat` subtraction. -/
def addLog10 (debugLog : List String) (msg : String) : List String :=
  debugLog.drop (debugLog.length - 9) ++ [msg]

/-- `addLog` from `src/unnamed/part_000` lines 31-34 (duplicate variant):
`setDebugLog(prev => [...prev.slice(-4), msg])`, keeping the last five. -/
def addLog5 (debugLog : List String) (msg : String) : List String :=
  debugLog.drop (debugLog.length - 4) ++ [msg]

end SocialMediaPosts

namespace SocialMediaPosts

/-! ## Part 2: the watermark compositing engine

The engine component (`WatermarkCanvas`, imported at `src/App.tsx` line 9)
is not present in the repository snapshot, so all definitions in this part
are modelled from the specification. -/

/-- Modelled from the spec (section 3, `WatermarkCanvas` source missing):
one RGBA sample with 8-bit channels, stored as bounded naturals. -/
structure RGBA8 where
  r : Nat
  g : Nat
  b : Nat
  a : Nat
deriving DecidableEq, Repr

/-- Modelled from the spec (section 3, `WatermarkCanvas` source missing):
immutable handle to decoded pixel data. -/
structure SourceImage where
  width : Nat
  height : Nat
  pixels : List RGBA8
deriving DecidableEq, Repr

/-- Modelled from the spec (section 3, `WatermarkCanvas` source missing):
the watermark specification value type. -/
structure WatermarkSpec where
  text : String
  opacity : Rat
  enabled : Bool
deriving DecidableEq, Repr

/-- Modelled from the spec (section 3, `WatermarkCanvas` source missing):
one instance of the watermark text drawn at a tile position. -/
structure Placement where
  x : Rat
  y : Rat
  rotationDegrees : Rat
deriving DecidableEq, Repr

/-- Modelled from the spec (section 3, `WatermarkCanvas` source missing):
the derived encoded image resource. -/
structure CompositedImage where
  encoding : Bool
  bytes : List Nat
deriving DecidableEq, Repr

/-- Clamp a rational to the unit interval, per section 4.3: opacity values
outside [0,1] are clamped, not rejected. -/
def clamp01 (q : Rat) : Rat := max 0 (min 1 q)

/-- Round a 0-1 normalized rational channel value to the nearest 8-bit
integer on store, per the numeric semantics of section 4.3. -/
def round8 (q : Rat) : Nat := (max 0 (min 255 (round (q * 255)))).toNat

/-- Fixed watermark font size in pixels (section 4.2 style parameter). -/
def watermarkFontSizePx : Rat := 48

/-- Fixed stride factor of section 4.2 (constant, e.g. 1.8). -/
def watermarkStrideFactor : Rat := 9 / 5

/-- Fixed uniform rotation angle of section 4.2 (e.g. -30 degrees). -/
def watermarkRotationDegrees : Rat := -30

/-- Modelled from the spec (section 4.2, `WatermarkCanvas` source missing):
`computeTiles` enumerates grid positions `(col*s, row*s)` with stride
`s = fontSizePx * strideFactor` and a uniform rotation, returning the empty
sequence when `width`, `height` or `text` is degenerate. -/
def computeTiles (width height : Nat) (text : String)
    (fontSizePx strideFactor : Rat) : List Placement :=
  if width = 0 ∨ height = 0 ∨ text = "" then []
  else
    let s := fontSizePx * strideFactor
    if s ≤ 0 then []
    else
      let cols := (⌈(width : Rat) / s⌉).toNat + 1
      let rows := (⌈(height : Rat) / s⌉).toNat + 1
      (List.range rows).flatMap fun row =>
        (List.range cols).map fun col =>
          ⟨(col : Rat) * s, (row : Rat) * s, watermarkRotationDegrees⟩

/-- Modelled from the spec (section 4.2 determinism, `WatermarkCanvas`
source missing): tile computation with the run environment (wall-clock
timestamp, PRNG seed) made explicit; per the determinism requirement the
environment influences nothing. -/
def computeTilesAt (_timestamp _randomSeed : Nat) (width height : Nat)
    (text : String) (fontSizePx strideFactor : Rat) : List Placement :=
  computeTiles width height text fontSizePx strideFactor

/-- Nominal rendered width of the watermark text box (glyph aspect ratio
fixed at 3/5 of the font size per character; the spec leaves glyph
geometry to the font, so the model fixes a deterministic footprint). -/
def textBoxWidth (text : String) (fontSizePx : Rat) : Rat :=
  fontSizePx * (3 / 5) * text.length

/-- Modelled from the spec (section 4.3, `WatermarkCanvas` source missing):
whether pixel `(px, py)` lies inside the rendered text footprint of some
placement.  The spec fixes no glyph shapes, so the model uses the axis
aligned text box of each placement as the covered region. -/
def coveredAt (placements : List Placement) (text : String)
    (fontSizePx : Rat) (px py : Nat) : Bool :=
  placements.any fun p =>
    decide (p.x ≤ (px : Rat)) &&
    decide ((px : Rat) < p.x + textBoxWidth text fontSizePx) &&
    decide (p.y ≤ (py : Rat)) &&
    decide ((py : Rat) < p.y + fontSizePx)

/-- Modelled from the spec (section 4.3, `WatermarkCanvas` source missing):
the overlay buffer's alpha at pixel index `i` of a row-major image of width
`w`: the clamped opacity where the text covers the pixel, zero elsewhere. -/
def overlayAlpha (placements : List Placement) (text : String)
    (opacity : Rat) (w i : Nat) : Rat :=
  if coveredAt placements text watermarkFontSizePx (i % w) (i / w)
  then clamp01 opacity else 0

/-- Source-over compositing of one channel, per section 4.3:
`out = overlay.c * overlay.a + base.c * (1 - overlay.a)` in 0-1 normalized
arithmetic, rounded to the nearest 8-bit integer on store.  The overlay
colour is the constant white watermark colour (normalized channel `ovc`). -/
def mixChannel (ovc : Rat) (alpha : Rat) (bc : Nat) : Nat :=
  round8 (ovc * alpha + ((bc : Rat) / 255) * (1 - alpha))

/-- Source-over compositing of one pixel: white overlay at the given alpha
over the base pixel; `out.a = base.a` per section 4.3. -/
def mixPixel (alpha : Rat) (b : RGBA8) : RGBA8 :=
  ⟨mixChannel 1 alpha b.r, mixChannel 1 alpha b.g, mixChannel 1 alpha b.b, b.a⟩

/-- The two pixel buffers of a blend run: the read-only base buffer and
the output buffer the run owns (section 5 shared-resource policy). -/
structure BlendBuffers where
  base : List RGBA8
  out : List RGBA8
deriving DecidableEq, Repr

/-- Write one pixel of the output buffer; the base buffer is untouched. -/
def blendWrite (bufs : BlendBuffers) (i : Nat) (px : RGBA8) : BlendBuffers :=
  { bufs with out := bufs.out.set i px }

/-- Modelled from the spec (section 4.3, `WatermarkCanvas` source missing):
the per-pixel blend loop.  Pixel `i` of the output buffer is written with
`f i` applied to pixel `i` read from the base buffer. -/
def blendLoop (f : Nat → RGBA8 → RGBA8) : Nat → BlendBuffers → BlendBuffers
  | 0, bufs => bufs
  | n + 1, bufs =>
      let bufs' := blendLoop f n bufs
      blendWrite bufs' n (f n (bufs'.base.getD n ⟨0, 0, 0, 0⟩))

/-- Modelled from the spec (section 4.3, `WatermarkCanvas` source missing):
`blend` run over explicit buffers.  The output buffer starts as a fresh
copy of the base pixels and every pixel in range is composited with the
overlay; the base buffer is only ever read. -/
def blendExec (base : SourceImage) (placements : List Placement)
    (text : String) (opacity : Rat) : BlendBuffers :=
  blendLoop
    (fun i b => mixPixel (overlayAlpha placements text opacity base.width i) b)
    (base.width * base.height)
    ⟨base.pixels, base.pixels⟩

/-- Modelled from the spec (section 4.3, `WatermarkCanvas` source missing):
the blend contract's result, the output buffer of the blend run. -/
def blend (base : SourceImage) (placements : List Placement)
    (text : String) (opacity : Rat) : List RGBA8 :=
  (blendExec base placements text opacity).out

/-- Lossless serialization of a pixel list, four bytes per pixel. -/
def pixelBytes (pixels : List RGBA8) : List Nat :=
  pixels.flatMap fun p => [p.r, p.g, p.b, p.a]

/-- 8-step quantization standing in for lossy (JPEG-style) encoding. -/
def quantize8 (v : Nat) : Nat := v / 8 * 8

/-- Modelled from the spec (section 4.4, `WatermarkCanvas` source missing):
deterministic encoder; the boolean format selects the lossless container
(`true`, PNG-like: header then raw RGBA bytes) or the lossy one (`false`,
JPEG-like: header then quantized opaque samples). -/
def encodePixels (width height : Nat) (pixels : List RGBA8)
    (lossless : Bool) : List Nat :=
  if lossless then 0 :: width :: height :: pixelBytes pixels
  else 1 :: width :: height ::
    (pixels.flatMap fun p => [quantize8 p.r, quantize8 p.g, quantize8 p.b, 255])

/-- Parse a flat byte list back into pixels, four bytes at a time. -/
def bytesToPixels : List Nat → Option (List RGBA8)
  | [] => some []
  | r :: g :: b :: a :: rest => (bytesToPixels rest).map (⟨r, g, b, a⟩ :: ·)
  | _ => none

/-- Modelled from the spec (section 4.1, `WatermarkCanvas` source missing):
decode the lossless container back into a `SourceImage`; anything else is
`DecodeError.Unreadable`, rendered as `none`. -/
def decodeImage : List Nat → Option SourceImage
  | 0 :: w :: h :: rest => (bytesToPixels rest).map (⟨w, h, ·⟩)
  | _ => none

/-- Modelled from the spec (sections 3 and 4.5, `WatermarkCanvas` source
missing): one composition run.  When the spec is disabled the blend stage
is bypassed and the unmodified source pixels are encoded; otherwise the
tiled watermark is blended in first. -/
def compose (src : SourceImage) (spec : WatermarkSpec)
    (lossless : Bool) : CompositedImage :=
  let pixels :=
    if spec.enabled then
      blend src
        (computeTiles src.width src.height spec.text
          watermarkFontSizePx watermarkStrideFactor)
        spec.text spec.opacity
    else src.pixels
  ⟨lossless, encodePixels src.width src.height pixels lossless⟩

/-- Modelled from the spec (section 3 purity invariant, `WatermarkCanvas`
source missing): a composition run with the environment (wall-clock
timestamp, PRNG seed) explicit; per the invariant neither influences
the output. -/
def composeAt (_timestamp _randomSeed : Nat) (src : SourceImage)
    (spec : WatermarkSpec) (lossless : Bool) : CompositedImage :=
  compose src spec lossless

/-- Orchestrator bookkeeping of section 5: the generation counter of the
latest submitted inputs and the list of published `(token, bytes)` results
in publication order. -/
structure OrchState where
  gen : Nat
  published : List (Nat × List Nat)
deriving DecidableEq, Repr

/-- Events seen by the orchestrator: a new input combination is submitted
(issuing the next generation token to its run), or an in-flight run
completes with its token and result bytes. -/
inductive OrchEvent where
  | submit (src : SourceImage) (spec : WatermarkSpec)
  | complete (token : Nat) (bytes : List Nat)
deriving DecidableEq, Repr

/-- Modelled from the spec (section 5, `WatermarkCanvas` source missing):
the staleness guard.  A submit bumps the generation counter; a completion
publishes its result only when its token is still the latest generation,
otherwise the stale result is dropped. -/
def orchStep (s : OrchState) : OrchEvent → OrchState
  | .submit _ _ => { s with gen := s.gen + 1 }
  | .complete token bytes =>
      if token = s.gen then { s with published := s.published ++ [(token, bytes)] }
      else s

/-- The orchestrator's initial state: no submissions, nothing published. -/
def orchInit : OrchState := ⟨0, []⟩

/-- Run the orchestrator over a whole event trace. -/
def orchRun (events : List OrchEvent) : OrchState :=
  events.foldl orchStep orchInit

/-- Pixel `i` of a buffer (transparent black when out of range). -/
def pixelAt (pixels : List RGBA8) (i : Nat) : RGBA8 := pixels.getD i ⟨0, 0, 0, 0⟩

/-- Distance between two stored 8-bit channel values. -/
def channelDist (x y : Nat) : Nat := max x y - min x y

/-- L1 distance between the colour channels of two stored pixels, the
per-pixel distance from the base image of section 8. -/
def pixelDist (p q : RGBA8) : Nat :=
  channelDist p.r q.r + channelDist p.g q.g + channelDist p.b q.b

/-- The pre-rounding normalized value of one blended channel: the white
overlay at the given alpha composited over stored channel `bc`. -/
def idealChannel (alpha : Rat) (bc : Nat) : Rat :=
  1 * alpha + ((bc : Rat) / 255) * (1 - alpha)

/-- The pre-rounding L1 distance of the blended pixel from the base
pixel, in 0-1 normalized units. -/
def idealDist (alpha : Rat) (p : RGBA8) : Rat :=
  |idealChannel alpha p.r - (p.r : Rat) / 255| +
    |idealChannel alpha p.g - (p.g : Rat) / 255| +
    |idealChannel alpha p.b - (p.b : Rat) / 255|

/-- The pipeline states of the section 4.5 state machine. -/
inductive Phase where
  | idle
  | decoding
  | blending
  | encoding
  | published
  | error
deriving DecidableEq, Repr

/-- The stage outcomes driving the section 4.5 state machine. -/
inductive PhaseEvent where
  | inputsArrive
  | decodeOk
  | decodeFail
  | blendOk
  | blendFail
  | encodeOk
  | encodeFail
deriving DecidableEq, Repr

/-- Modelled from the spec (section 4.5 transitions, `WatermarkCanvas`
source missing): new inputs always start a fresh run in `decoding`; each
stage advances on success and reaches the terminal `error` on failure;
any other combination leaves the state unchanged (no automatic retry). -/
def phaseStep : Phase → PhaseEvent → Phase
  | _, .inputsArrive => .decoding
  | .decoding, .decodeOk => .blending
  | .decoding, .decodeFail => .error
  | .blending, .blendOk => .encoding
  | .blending, .blendFail => .error
  | .encoding, .encodeOk => .published
  | .encoding, .encodeFail => .error
  | s, _ => s

end SocialMediaPosts

namespace SocialMediaPosts

/-! ## Part 3: helper lemmas about the engine model -/

theorem bytesToPixels_pixelBytes (pixels : List RGBA8) :
    bytesToPixels (pixelBytes pixels) = some pixels := by
  induction pixels with
  | nil => rfl
  | cons p ps ih =>
      simp only [pixelBytes, List.flatMap_cons] at ih ⊢
      simp [bytesToPixels, ih]

theorem blendLoop_base (f : Nat → RGBA8 → RGBA8) (n : Nat) (bufs : BlendBuffers) :
    (blendLoop f n bufs).base = bufs.base := by
  induction n with
  | zero => rfl
  | succ n ih => simp [blendLoop, blendWrite, ih]

theorem blendLoop_out_length (f : Nat → RGBA8 → RGBA8) (n : Nat) (bufs : BlendBuffers) :
    (blendLoop f n bufs).out.length = bufs.out.length := by
  induction n with
  | zero => rfl
  | succ n ih => simp [blendLoop, blendWrite, ih]

theorem blendLoop_out_get (f : Nat → RGBA8 → RGBA8) (n : Nat) (bufs : BlendBuffers)
    (i : Nat) :
    (blendLoop f n bufs).out.get? i =
      if i < n ∧ i < bufs.out.length
      then some (f i (bufs.base.getD i ⟨0, 0, 0, 0⟩))
      else bufs.out.get? i := by
  induction n with
  | zero => simp [blendLoop]
  | succ n ih =>
      simp only [blendLoop, blendWrite]
      rcases eq_or_ne i n with h | h
      · subst h
        by_cases hl : i < bufs.out.length
        · have hl' : i < (blendLoop f i bufs).out.length := by
            rw [blendLoop_out_length]; exact hl
          simp [List.get?_eq_getElem?, List.getElem?_set, hl', blendLoop_base,
            Nat.lt_succ_self, hl]
        · have hl' : ¬ i < (blendLoop f i bufs).out.length := by
            rw [blendLoop_out_length]; exact hl
          rw [List.get?_eq_getElem?, List.getElem?_set]
          simp only [if_pos rfl, if_neg hl']
          rw [← List.get?_eq_getElem?, ih]
          simp [hl]
          omega
      · rw [List.get?_eq_getElem?, List.getElem?_set, if_neg (by exact fun hc => h hc.symm),
          ← List.get?_eq_getElem?, ih]
        have : (i < n + 1 ∧ i < bufs.out.length) ↔ (i < n ∧ i < bufs.out.length) := by
          constructor
          · rintro ⟨h1, h2⟩; exact ⟨by omega, h2⟩
          · rintro ⟨h1, h2⟩; exact ⟨by omega, h2⟩
        rw [if_congr this rfl rfl]

theorem blend_get (base : SourceImage) (placements : List Placement)
    (text : String) (opacity : Rat) (i : Nat)
    (hi : i < base.width * base.height)
    (hlen : base.pixels.length = base.width * base.height) :
    (blend base placements text opacity).get? i =
      some (mixPixel (overlayAlpha placements text opacity base.width i)
        (base.pixels.getD i ⟨0, 0, 0, 0⟩)) := by
  rw [blend, blendExec, blendLoop_out_get]
  have h2 : i < base.pixels.length := by rw [hlen]; exact hi
  rw [if_pos ⟨hi, h2⟩]

theorem clamp01_eq_self (q : Rat) (h0 : 0 ≤ q) (h1 : q ≤ 1) : clamp01 q = q := by
  unfold clamp01
  rw [min_eq_right h1, max_eq_right h0]

theorem clamp01_nonneg (q : Rat) : 0 ≤ clamp01 q := le_max_left 0 _

theorem clamp01_le_one (q : Rat) : clamp01 q ≤ 1 :=
  max_le (by norm_num) (min_le_left 1 q)

theorem clamp01_idem (q : Rat) : clamp01 (clamp01 q) = clamp01 q :=
  clamp01_eq_self _ (clamp01_nonneg q) (clamp01_le_one q)

theorem getD_eq_getQ (l : List RGBA8) (i : Nat) (d : RGBA8) :
    l.getD i d = (l.get? i).getD d := by
  simp [List.getD, List.get?_eq_getElem?]

theorem pixelAt_blend (base : SourceImage) (placements : List Placement)
    (text : String) (opacity : Rat) (i : Nat)
    (hi : i < base.width * base.height)
    (hlen : base.pixels.length = base.width * base.height) :
    pixelAt (blend base placements text opacity) i =
      mixPixel (overlayAlpha placements text opacity base.width i)
        (pixelAt base.pixels i) := by
  unfold pixelAt
  rw [getD_eq_getQ, blend_get base placements text opacity i hi hlen]
  rfl

theorem round8_mono {q1 q2 : Rat} (h : q1 ≤ q2) : round8 q1 ≤ round8 q2 := by
  unfold round8
  apply Int.toNat_le_toNat
  apply max_le_max le_rfl
  apply min_le_min le_rfl
  rw [round_eq, round_eq]
  exact Int.floor_mono (by linarith)

theorem round8_ge (bc : Nat) (q : Rat) (hbc : bc ≤ 255) (h : (bc : Rat) ≤ q * 255) :
    bc ≤ round8 q := by
  unfold round8
  have h1 : (bc : Int) ≤ round (q * 255) := by
    rw [round_eq]
    apply Int.le_floor.mpr
    push_cast
    linarith
  have h2 : (bc : Int) ≤ max 0 (min 255 (round (q * 255))) :=
    le_max_of_le_right (le_min (by exact_mod_cast hbc) h1)
  calc bc = ((bc : Int)).toNat := (Int.toNat_natCast bc).symm
    _ ≤ _ := Int.toNat_le_toNat h2

theorem idealChannel_sub (alpha : Rat) (bc : Nat) :
    idealChannel alpha bc - (bc : Rat) / 255 = alpha * (255 - (bc : Rat)) / 255 := by
  unfold idealChannel
  ring

theorem idealTerm_nonneg (alpha : Rat) (bc : Nat) (h0 : 0 ≤ alpha) (hbc : bc ≤ 255) :
    0 ≤ alpha * (255 - (bc : Rat)) / 255 := by
  have hb : (bc : Rat) ≤ 255 := by exact_mod_cast hbc
  have hm := mul_nonneg h0 (by linarith : (0 : Rat) ≤ 255 - (bc : Rat))
  linarith

theorem idealChannel_ge (alpha : Rat) (bc : Nat) (h0 : 0 ≤ alpha) (hbc : bc ≤ 255) :
    (bc : Rat) / 255 ≤ idealChannel alpha bc := by
  have h1 := idealChannel_sub alpha bc
  have h2 := idealTerm_nonneg alpha bc h0 hbc
  linarith

theorem idealChannel_mono (a b : Rat) (bc : Nat) (hab : a ≤ b) (hbc : bc ≤ 255) :
    idealChannel a bc ≤ idealChannel b bc := by
  have hb : (bc : Rat) ≤ 255 := by exact_mod_cast hbc
  have key : idealChannel b bc - idealChannel a bc = (b - a) * (255 - (bc : Rat)) / 255 := by
    unfold idealChannel
    ring
  have h1 : 0 ≤ (b - a) * (255 - (bc : Rat)) :=
    mul_nonneg (by linarith) (by linarith)
  linarith

theorem mixChannel_ge (alpha : Rat) (bc : Nat) (h0 : 0 ≤ alpha) (hbc : bc ≤ 255) :
    bc ≤ mixChannel 1 alpha bc := by
  show bc ≤ round8 (idealChannel alpha bc)
  apply round8_ge bc _ hbc
  have h := idealChannel_ge alpha bc h0 hbc
  have h255 : (bc : Rat) / 255 * 255 ≤ idealChannel alpha bc * 255 :=
    mul_le_mul_of_nonneg_right h (by norm_num)
  have hbs : (bc : Rat) / 255 * 255 = (bc : Rat) := by field_simp
  linarith

theorem mixChannel_mono (a b : Rat) (bc : Nat) (hab : a ≤ b) (hbc : bc ≤ 255) :
    mixChannel 1 a bc ≤ mixChannel 1 b bc := by
  show round8 (idealChannel a bc) ≤ round8 (idealChannel b bc)
  exact round8_mono (idealChannel_mono a b bc hab hbc)

theorem channelDist_of_le {x y : Nat} (h : y ≤ x) : channelDist x y = x - y := by
  unfold channelDist
  rw [max_eq_left h, min_eq_right h]

theorem mixChannel_dist_mono (a b : Rat) (bc : Nat) (h0 : 0 ≤ a) (hab : a ≤ b)
    (hbc : bc ≤ 255) :
    channelDist (mixChannel 1 a bc) bc ≤ channelDist (mixChannel 1 b bc) bc := by
  rw [channelDist_of_le (mixChannel_ge a bc h0 hbc),
    channelDist_of_le (mixChannel_ge b bc (le_trans h0 hab) hbc)]
  exact Nat.sub_le_sub_right (mixChannel_mono a b bc hab hbc) bc

theorem idealDist_eq (alpha : Rat) (p : RGBA8) (h0 : 0 ≤ alpha)
    (hr : p.r ≤ 255) (hg : p.g ≤ 255) (hb : p.b ≤ 255) :
    idealDist alpha p =
      alpha * ((255 - (p.r : Rat)) + (255 - (p.g : Rat)) + (255 - (p.b : Rat))) / 255 := by
  unfold idealDist
  rw [idealChannel_sub, idealChannel_sub, idealChannel_sub,
    abs_of_nonneg (idealTerm_nonneg alpha p.r h0 hr),
    abs_of_nonneg (idealTerm_nonneg alpha p.g h0 hg),
    abs_of_nonneg (idealTerm_nonneg alpha p.b h0 hb)]
  ring

theorem mixChannel_white (alpha : Rat) : mixChannel 1 alpha 255 = 255 := by
  unfold mixChannel round8
  have harg : ((1 : Rat) * alpha + ((255 : Nat) : Rat) / 255 * (1 - alpha)) * 255 = 255 := by
    push_cast
    ring
  rw [harg, show round ((255 : Rat)) = 255 by norm_num]
  decide

theorem orchStep_gen_le (s : OrchState) (e : OrchEvent) : s.gen ≤ (orchStep s e).gen := by
  cases e with
  | submit src spec => simp [orchStep]
  | complete token bytes =>
      simp only [orchStep]
      split <;> simp

theorem orchFold_gen_le (events : List OrchEvent) (s : OrchState) :
    s.gen ≤ (events.foldl orchStep s).gen := by
  induction events generalizing s with
  | nil => simp
  | cons e es ih => exact le_trans (orchStep_gen_le s e) (ih (orchStep s e))

end SocialMediaPosts

namespace SocialMediaPosts

/-! ## Part 4: the claims -/

/-- C1: with `WatermarkSpec.enabled = false` the composition run bypasses
the blend stage and encodes the unmodified source pixels, so its bytes are
exactly the source image re-encoded (in either encoding) and the lossless
result decodes pixel-identically to the source image. -/
theorem compose_disabled_noop (src : SourceImage) (text : String)
    (opacity : Rat) (lossless : Bool) :
    (compose src ⟨text, opacity, false⟩ lossless).bytes =
      encodePixels src.width src.height src.pixels lossless ∧
    decodeImage (compose src ⟨text, opacity, false⟩ true).bytes =
      some ⟨src.width, src.height, src.pixels⟩ := by
  constructor
  · rfl
  · show decodeImage (0 :: src.width :: src.height :: pixelBytes src.pixels) = _
    simp [decodeImage, bytesToPixels_pixelBytes]

/-- C2: composition is a pure function of `(SourceImage, WatermarkSpec)`:
two runs at arbitrary timestamps and random seeds produce byte-identical
lossless output. -/
theorem compose_pure (t1 r1 t2 r2 : Nat) (src : SourceImage)
    (spec : WatermarkSpec) :
    (composeAt t1 r1 src spec true).bytes = (composeAt t2 r2 src spec true).bytes :=
  rfl

/-- C5: `computeTiles` returns the empty sequence when `width` is 0, when
`height` is 0, or when `text` is empty, and is deterministic: the same
inputs yield the same sequence in the same order regardless of the run
environment. -/
theorem computeTiles_edge_cases :
    (∀ (h : Nat) (text : String) (f k : Rat), computeTiles 0 h text f k = []) ∧
    (∀ (w : Nat) (text : String) (f k : Rat), computeTiles w 0 text f k = []) ∧
    (∀ (w h : Nat) (f k : Rat), computeTiles w h "" f k = []) ∧
    (∀ (t1 r1 t2 r2 w h : Nat) (text : String) (f k : Rat),
      computeTilesAt t1 r1 w h text f k = computeTilesAt t2 r2 w h text f k) := by
  refine ⟨?_, ?_, ?_, ?_⟩ <;> intros <;> simp [computeTiles, computeTilesAt]

/-- C8: decode, blend and encode failures each drive the run to the
terminal `error` state; in `error`, every event other than the arrival of
new inputs leaves the state in `error` (no automatic retry), new inputs
transition back to `decoding`, and a failed run followed by a successful
input change proceeds normally to `published`. -/
theorem error_recoverability :
    phaseStep .decoding .decodeFail = .error ∧
    phaseStep .blending .blendFail = .error ∧
    phaseStep .encoding .encodeFail = .error ∧
    phaseStep .error .decodeOk = .error ∧
    phaseStep .error .decodeFail = .error ∧
    phaseStep .error .blendOk = .error ∧
    phaseStep .error .blendFail = .error ∧
    phaseStep .error .encodeOk = .error ∧
    phaseStep .error .encodeFail = .error ∧
    phaseStep .error .inputsArrive = .decoding ∧
    List.foldl phaseStep .error
      [.inputsArrive, .decodeOk, .blendOk, .encodeOk] = .published := by
  decide

/-- C4: staleness guard.  After inputs A and then B have been submitted,
completing A's run (whose token was issued at A's submission, before B
arrived) publishes nothing, whatever else happened in between or after;
completing the run holding the current token does publish its result. -/
theorem stale_result_never_published (pre mid post : List OrchEvent)
    (srcA srcB : SourceImage) (specA specB : WatermarkSpec) (bytesA : List Nat) :
    (orchStep
        (orchRun (pre ++ OrchEvent.submit srcA specA ::
          (mid ++ OrchEvent.submit srcB specB :: post)))
        (OrchEvent.complete ((orchRun pre).gen + 1) bytesA)).published =
      (orchRun (pre ++ OrchEvent.submit srcA specA ::
        (mid ++ OrchEvent.submit srcB specB :: post))).published ∧
    (∀ (s : OrchState) (bytes : List Nat),
      (orchStep s (OrchEvent.complete s.gen bytes)).published =
        s.published ++ [(s.gen, bytes)]) := by
  constructor
  · have hrun : orchRun (pre ++ OrchEvent.submit srcA specA ::
        (mid ++ OrchEvent.submit srcB specB :: post)) =
        List.foldl orchStep
          (orchStep
            (List.foldl orchStep
              (orchStep (orchRun pre) (OrchEvent.submit srcA specA)) mid)
            (OrchEvent.submit srcB specB)) post := by
      simp [orchRun, List.foldl_append]
    have h2 : (orchStep (orchRun pre) (OrchEvent.submit srcA specA)).gen =
        (orchRun pre).gen + 1 := rfl
    have h3 : (orchRun pre).gen + 1 ≤
        (List.foldl orchStep
          (orchStep (orchRun pre) (OrchEvent.submit srcA specA)) mid).gen := by
      rw [← h2]; exact orchFold_gen_le mid _
    have h4 : (orchStep
        (List.foldl orchStep
          (orchStep (orchRun pre) (OrchEvent.submit srcA specA)) mid)
        (OrchEvent.submit srcB specB)).gen =
        (List.foldl orchStep
          (orchStep (orchRun pre) (OrchEvent.submit srcA specA)) mid).gen + 1 := rfl
    have h5 : (orchStep
        (List.foldl orchStep
          (orchStep (orchRun pre) (OrchEvent.submit srcA specA)) mid)
        (OrchEvent.submit srcB specB)).gen ≤
        (orchRun (pre ++ OrchEvent.submit srcA specA ::
          (mid ++ OrchEvent.submit srcB specB :: post))).gen := by
      rw [hrun]; exact orchFold_gen_le post _
    have hne : (orchRun pre).gen + 1 ≠
        (orchRun (pre ++ OrchEvent.submit srcA specA ::
          (mid ++ OrchEvent.submit srcB specB :: post))).gen := by omega
    simp [orchStep, hne]
  · intro s bytes
    simp [orchStep]

/-- C7: frame property of blend.  The blend run only ever writes the output
buffer it owns, so after the run the base buffer still holds the source
image's pixels bit for bit. -/
theorem blend_never_mutates_base (base : SourceImage)
    (placements : List Placement) (text : String) (opacity : Rat) :
    (blendExec base placements text opacity).base = base.pixels := by
  simp [blendExec, blendLoop_base]

/-- C3: blend clamps out-of-range opacity instead of rejecting it (blending
with any opacity equals blending with its clamp to [0,1]), and every output
pixel in range is the source-over composite of the overlay (white text at
the clamped opacity where covered, transparent elsewhere) over the base
pixel, computed in normalized exact arithmetic and rounded to the nearest
8-bit integer on store, with the output alpha equal to the base alpha. -/
theorem blend_source_over (base : SourceImage) (placements : List Placement)
    (text : String) (opacity : Rat) (i : Nat)
    (hi : i < base.width * base.height)
    (hlen : base.pixels.length = base.width * base.height) :
    blend base placements text opacity =
      blend base placements text (clamp01 opacity) ∧
    (blend base placements text opacity).get? i =
      some (mixPixel (overlayAlpha placements text opacity base.width i)
        (base.pixels.getD i ⟨0, 0, 0, 0⟩)) := by
  constructor
  · simp [blend, blendExec, overlayAlpha, clamp01_idem]
  · exact blend_get base placements text opacity i hi hlen

/-- Witness for C3 at a concrete 1-by-1 image, one placement covering the
pixel, and the out-of-range opacity 3/2. -/
theorem blend_source_over_witness :
    0 < 1 * 1 ∧
    ([(⟨10, 20, 30, 255⟩ : RGBA8)] : List RGBA8).length = 1 * 1 ∧
    ((blend ⟨1, 1, [⟨10, 20, 30, 255⟩]⟩ [⟨0, 0, -30⟩] "@W" (3 / 2) =
        blend ⟨1, 1, [⟨10, 20, 30, 255⟩]⟩ [⟨0, 0, -30⟩] "@W" (clamp01 (3 / 2))) ∧
      (blend ⟨1, 1, [⟨10, 20, 30, 255⟩]⟩ [⟨0, 0, -30⟩] "@W" (3 / 2)).get? 0 =
        some (mixPixel (overlayAlpha [⟨0, 0, -30⟩] "@W" (3 / 2) 1 0)
          (([(⟨10, 20, 30, 255⟩ : RGBA8)] : List RGBA8).getD 0 ⟨0, 0, 0, 0⟩))) :=
  ⟨by decide, by decide,
    blend_source_over ⟨1, 1, [⟨10, 20, 30, 255⟩]⟩ [⟨0, 0, -30⟩] "@W" (3 / 2) 0
      (by decide) (by decide)⟩

/-- C6 (amended): for a fixed base image, text and placements and opacities
`a < b` in (0,1), at every covered in-range pixel the overlay's alpha is
strictly larger at `b` than at `a`; the pre-rounding per-pixel distance
from the base is monotone nondecreasing, and strictly increasing whenever
the (white) overlay colour differs from the base colour in some channel;
and the stored (8-bit rounded) per-pixel distance is monotone
nondecreasing.  (The strict inequality of the claim fails where the
overlay colour equals the base colour, see the counterexample.) -/
theorem opacity_monotonicity (base : SourceImage) (placements : List Placement)
    (text : String) (a b : Rat) (i : Nat)
    (ha : 0 < a) (hab : a < b) (hb : b < 1)
    (hcov : coveredAt placements text watermarkFontSizePx
      (i % base.width) (i / base.width) = true)
    (hi : i < base.width * base.height)
    (hlen : base.pixels.length = base.width * base.height)
    (hr : (pixelAt base.pixels i).r ≤ 255)
    (hg : (pixelAt base.pixels i).g ≤ 255)
    (hb255 : (pixelAt base.pixels i).b ≤ 255) :
    overlayAlpha placements text a base.width i <
      overlayAlpha placements text b base.width i ∧
    idealDist a (pixelAt base.pixels i) ≤ idealDist b (pixelAt base.pixels i) ∧
    ((pixelAt base.pixels i).r < 255 ∨ (pixelAt base.pixels i).g < 255 ∨
        (pixelAt base.pixels i).b < 255 →
      idealDist a (pixelAt base.pixels i) < idealDist b (pixelAt base.pixels i)) ∧
    pixelDist (pixelAt (blend base placements text a) i) (pixelAt base.pixels i) ≤
      pixelDist (pixelAt (blend base placements text b) i) (pixelAt base.pixels i) := by
  have h0a : (0 : Rat) ≤ a := ha.le
  have ha1 : a ≤ 1 := by linarith
  have h0b : (0 : Rat) ≤ b := by linarith
  have hb1 : b ≤ 1 := hb.le
  set p := pixelAt base.pixels i with hp
  have hrQ : (p.r : Rat) ≤ 255 := by exact_mod_cast hr
  have hgQ : (p.g : Rat) ≤ 255 := by exact_mod_cast hg
  have hbQ : (p.b : Rat) ≤ 255 := by exact_mod_cast hb255
  refine ⟨?_, ?_, ?_, ?_⟩
  · unfold overlayAlpha
    rw [if_pos hcov, if_pos hcov, clamp01_eq_self a h0a ha1,
      clamp01_eq_self b h0b hb1]
    exact hab
  · rw [idealDist_eq a p h0a hr hg hb255, idealDist_eq b p h0b hr hg hb255]
    have hK : (0 : Rat) ≤ (255 - (p.r : Rat)) + (255 - (p.g : Rat)) + (255 - (p.b : Rat)) := by
      linarith
    have hm := mul_le_mul_of_nonneg_right hab.le hK
    linarith
  · intro hdiff
    rw [idealDist_eq a p h0a hr hg hb255, idealDist_eq b p h0b hr hg hb255]
    have hK : (0 : Rat) <
        (255 - (p.r : Rat)) + (255 - (p.g : Rat)) + (255 - (p.b : Rat)) := by
      rcases hdiff with h | h | h
      · have hx : (p.r : Rat) < 255 := by exact_mod_cast h
        linarith
      · have hx : (p.g : Rat) < 255 := by exact_mod_cast h
        linarith
      · have hx : (p.b : Rat) < 255 := by exact_mod_cast h
        linarith
    have hm := mul_lt_mul_of_pos_right hab hK
    linarith
  · rw [pixelAt_blend base placements text a i hi hlen,
      pixelAt_blend base placements text b i hi hlen]
    have hA : overlayAlpha placements text a base.width i = a := by
      unfold overlayAlpha
      rw [if_pos hcov]
      exact clamp01_eq_self a h0a ha1
    have hB : overlayAlpha placements text b base.width i = b := by
      unfold overlayAlpha
      rw [if_pos hcov]
      exact clamp01_eq_self b h0b hb1
    rw [hA, hB, ← hp]
    simp only [pixelDist, mixPixel]
    exact add_le_add
      (add_le_add (mixChannel_dist_mono a b p.r h0a hab.le hr)
        (mixChannel_dist_mono a b p.g h0a hab.le hg))
      (mixChannel_dist_mono a b p.b h0a hab.le hb255)

/-- Witness for C6 at a concrete black 1-by-1 image, one placement covering
the pixel, and opacities 1/4 < 1/2. -/
theorem opacity_monotonicity_witness :
    ((0 : Rat) < 1 / 4 ∧ (1 / 4 : Rat) < 1 / 2 ∧ (1 / 2 : Rat) < 1 ∧
      coveredAt [⟨0, 0, -30⟩] "@W" watermarkFontSizePx (0 % 1) (0 / 1) = true ∧
      0 < 1 * 1 ∧
      ([(⟨0, 0, 0, 255⟩ : RGBA8)] : List RGBA8).length = 1 * 1 ∧
      (pixelAt [⟨0, 0, 0, 255⟩] 0).r ≤ 255 ∧
      (pixelAt [⟨0, 0, 0, 255⟩] 0).g ≤ 255 ∧
      (pixelAt [⟨0, 0, 0, 255⟩] 0).b ≤ 255) ∧
    (overlayAlpha [⟨0, 0, -30⟩] "@W" (1 / 4) 1 0 <
        overlayAlpha [⟨0, 0, -30⟩] "@W" (1 / 2) 1 0 ∧
      idealDist (1 / 4) (pixelAt [⟨0, 0, 0, 255⟩] 0) ≤
        idealDist (1 / 2) (pixelAt [⟨0, 0, 0, 255⟩] 0) ∧
      ((pixelAt ([(⟨0, 0, 0, 255⟩ : RGBA8)] : List RGBA8) 0).r < 255 ∨
          (pixelAt ([(⟨0, 0, 0, 255⟩ : RGBA8)] : List RGBA8) 0).g < 255 ∨
          (pixelAt ([(⟨0, 0, 0, 255⟩ : RGBA8)] : List RGBA8) 0).b < 255 →
        idealDist (1 / 4) (pixelAt [⟨0, 0, 0, 255⟩] 0) <
          idealDist (1 / 2) (pixelAt [⟨0, 0, 0, 255⟩] 0)) ∧
      pixelDist
          (pixelAt (blend ⟨1, 1, [⟨0, 0, 0, 255⟩]⟩ [⟨0, 0, -30⟩] "@W" (1 / 4)) 0)
          (pixelAt [⟨0, 0, 0, 255⟩] 0) ≤
        pixelDist
          (pixelAt (blend ⟨1, 1, [⟨0, 0, 0, 255⟩]⟩ [⟨0, 0, -30⟩] "@W" (1 / 2)) 0)
          (pixelAt [⟨0, 0, 0, 255⟩] 0)) := by
  have hcov : coveredAt [⟨0, 0, -30⟩] "@W" watermarkFontSizePx (0 % 1) (0 / 1) = true := by
    simp [coveredAt, textBoxWidth, watermarkFontSizePx,
      (show ("@W").length = 2 by decide)]
  refine ⟨⟨by norm_num, by norm_num, by norm_num, hcov, by decide, by decide,
    by decide, by decide, by decide⟩, ?_⟩
  exact opacity_monotonicity ⟨1, 1, [⟨0, 0, 0, 255⟩]⟩ [⟨0, 0, -30⟩] "@W"
    (1 / 4) (1 / 2) 0 (by norm_num) (by norm_num) (by norm_num) hcov
    (by decide) (by decide) (by decide) (by decide) (by decide)

/-- Counterexample to C6 as stated: on a pure white base pixel the overlay
colour equals the base colour, so although the pixel is covered and the two
opacities lie in (0,1), the per-pixel distance from the base is 0 at both
opacities (stored and pre-rounding alike), not strictly larger at the
higher opacity. -/
theorem opacity_monotonicity_counterexample :
    coveredAt [⟨0, 0, -30⟩] "@W" watermarkFontSizePx (0 % 1) (0 / 1) = true ∧
    (0 : Rat) < 1 / 4 ∧ (1 / 4 : Rat) < 1 / 2 ∧ (1 / 2 : Rat) < 1 ∧
    ¬ (pixelDist
          (pixelAt (blend ⟨1, 1, [⟨255, 255, 255, 255⟩]⟩ [⟨0, 0, -30⟩] "@W" (1 / 4)) 0)
          (pixelAt [⟨255, 255, 255, 255⟩] 0) <
        pixelDist
          (pixelAt (blend ⟨1, 1, [⟨255, 255, 255, 255⟩]⟩ [⟨0, 0, -30⟩] "@W" (1 / 2)) 0)
          (pixelAt [⟨255, 255, 255, 255⟩] 0)) ∧
    idealDist (1 / 4) (pixelAt ([(⟨255, 255, 255, 255⟩ : RGBA8)] : List RGBA8) 0) =
      idealDist (1 / 2) (pixelAt ([(⟨255, 255, 255, 255⟩ : RGBA8)] : List RGBA8) 0) := by
  have hcov : coveredAt [⟨0, 0, -30⟩] "@W" watermarkFontSizePx (0 % 1) (0 / 1) = true := by
    simp [coveredAt, textBoxWidth, watermarkFontSizePx,
      (show ("@W").length = 2 by decide)]
  have hwhite : ∀ q : Rat,
      pixelAt (blend ⟨1, 1, [⟨255, 255, 255, 255⟩]⟩ [⟨0, 0, -30⟩] "@W" q) 0 =
        ⟨255, 255, 255, 255⟩ := by
    intro q
    rw [pixelAt_blend ⟨1, 1, [⟨255, 255, 255, 255⟩]⟩ [⟨0, 0, -30⟩] "@W" q 0
      (by decide) (by decide)]
    have hA : overlayAlpha [⟨0, 0, -30⟩] "@W" q 1 0 = clamp01 q := by
      unfold overlayAlpha
      rw [if_pos hcov]
    rw [hA]
    show mixPixel (clamp01 q) ⟨255, 255, 255, 255⟩ = ⟨255, 255, 255, 255⟩
    simp [mixPixel, mixChannel_white]
  have hideal : ∀ q : Rat, idealDist q (⟨255, 255, 255, 255⟩ : RGBA8) = 0 := by
    intro q
    have hch : idealChannel q 255 - ((255 : Nat) : Rat) / 255 = 0 := by
      unfold idealChannel
      push_cast
      ring
    simp only [idealDist]
    rw [hch]  -- may need shaping; fallback below
    simp
  refine ⟨hcov, by norm_num, by norm_num, by norm_num, ?_, ?_⟩
  · rw [hwhite (1 / 4), hwhite (1 / 2)]
    decide
  · show idealDist (1 / 4) (⟨255, 255, 255, 255⟩ : RGBA8) =
      idealDist (1 / 2) (⟨255, 255, 255, 255⟩ : RGBA8)
    rw [hideal (1 / 4), hideal (1 / 2)]

/-! ## Part 5: claims C9 and C10, about the glue code of Part 1 -/

/-- C9: `updateProcessedUrl` changes only the `processedUrl` field of the
posts whose `id` equals `postId`; all other state fields, the list length
and order, and every other post and field are unchanged; with no matching
id the state is unchanged altogether. -/
theorem updateProcessedUrl_frame (postId newUrl : String) (s : AppState) :
    (updateProcessedUrl postId newUrl s).apiKeySelected = s.apiKeySelected ∧
    (updateProcessedUrl postId newUrl s).isGenerating = s.isGenerating ∧
    (updateProcessedUrl postId newUrl s).statusMessage = s.statusMessage ∧
    (updateProcessedUrl postId newUrl s).settings = s.settings ∧
    (updateProcessedUrl postId newUrl s).posts.length = s.posts.length ∧
    (∀ i : Nat, (updateProcessedUrl postId newUrl s).posts.get? i =
      (s.posts.get? i).map fun p =>
        if p.id = postId then { p with processedUrl := newUrl } else p) ∧
    ((∀ p ∈ s.posts, p.id ≠ postId) → updateProcessedUrl postId newUrl s = s) := by
  refine ⟨rfl, rfl, rfl, rfl, ?_, ?_, ?_⟩
  · simp [updateProcessedUrl]
  · intro i
    simp [updateProcessedUrl, List.get?_eq_getElem?]
  · intro hnone
    have hmap : s.posts.map (fun p =>
        if p.id = postId then { p with processedUrl := newUrl } else p) = s.posts := by
      conv_rhs => rw [← List.map_id s.posts]
      apply List.map_congr_left
      intro p hp
      simp [hnone p hp]
    simp [updateProcessedUrl, hmap]

/-- Witness for C9 at a concrete state whose single post does not match. -/
theorem updateProcessedUrl_frame_witness :
    (∀ p ∈ ([⟨"a", "o", "u", "pr", "c"⟩] : List GeneratedPost), p.id ≠ "b") ∧
    updateProcessedUrl "b" "new"
      ⟨false, false, "", [⟨"a", "o", "u", "pr", "c"⟩],
        ⟨.igSquare, .res1K, "s", 1, "@w", 1/2, true⟩⟩ =
      ⟨false, false, "", [⟨"a", "o", "u", "pr", "c"⟩],
        ⟨.igSquare, .res1K, "s", 1, "@w", 1/2, true⟩⟩ := by
  refine ⟨by decide, ?_⟩
  exact (updateProcessedUrl_frame "b" "new"
    ⟨false, false, "", [⟨"a", "o", "u", "pr", "c"⟩],
      ⟨.igSquare, .res1K, "s", 1, "@w", 1/2, true⟩⟩).2.2.2.2.2.2 (by decide)

/-- C10: after any `addLog` call, the authoritative variant's log has at
most 10 entries, the new message is last, and the remaining entries are the
most recent previous entries in their original order (a suffix of the old
log of length `min 9 (old length)`); the duplicate variant keeps at most 5
entries under the same rule. -/
theorem addLog_bounded (debugLog : List String) (msg : String) :
    (addLog10 debugLog msg).length ≤ 10 ∧
    (addLog10 debugLog msg).getLast? = some msg ∧
    (addLog10 debugLog msg).dropLast <:+ debugLog ∧
    (addLog10 debugLog msg).dropLast.length = min 9 debugLog.length ∧
    (addLog5 debugLog msg).length ≤ 5 ∧
    (addLog5 debugLog msg).getLast? = some msg ∧
    (addLog5 debugLog msg).dropLast <:+ debugLog ∧
    (addLog5 debugLog msg).dropLast.length = min 4 debugLog.length := by
  refine ⟨?_, ?_, ?_, ?_, ?_, ?_, ?_, ?_⟩
  · simp only [addLog10, List.length_append, List.length_drop, List.length_singleton]
    omega
  · simp [addLog10]
  · simpa [addLog10] using List.drop_suffix (debugLog.length - 9) debugLog
  · simp only [addLog10, List.dropLast_concat, List.length_drop]
    omega
  · simp only [addLog5, List.length_append, List.length_drop, List.length_singleton]
    omega
  · simp [addLog5]
  · simpa [addLog5] using List.drop_suffix (debugLog.length - 4) debugLog
  · simp only [addLog5, List.dropLast_concat, List.length_drop]
    omega

end SocialMediaPosts
